import Mathlib

set_option maxHeartbeats 1000000

/-!
Shallow embedding of `PromptRequest::send` (rig-core, `src/agent/prompt_request.rs`)
and the data model it operates on.  The completion provider and the tool registry are
the external collaborators: they are passed in as functions (`responses` gives the
provider's answer to the n-th completion call, `tools` is the registry's
`call(name, arguments)`).  Panics (`expect`, `unreachable!`) are modelled as `none`.
-/

deriving instance DecidableEq for Except

namespace Rig

/-- Nonempty ordered collection mirroring rig's `OneOrMany`: a `first` element plus
a possibly empty `rest`. -/
structure OneOrMany (α : Type) where
  first : α
  rest : List α
deriving DecidableEq, Repr

/-- Iteration order of a `OneOrMany`: `first` followed by `rest`. -/
def OneOrMany.toList {α : Type} (x : OneOrMany α) : List α :=
  x.first :: x.rest

/-- Constructor `OneOrMany::one`. -/
def OneOrMany.one {α : Type} (a : α) : OneOrMany α := ⟨a, []⟩

/-- Constructor `OneOrMany::many`, which fails on the empty list; the failure that the
source unwraps with `expect` is modelled as `none`. -/
def OneOrMany.many {α : Type} : List α → Option (OneOrMany α)
  | [] => none
  | a :: rest => some ⟨a, rest⟩

/-- Field `function` of a tool call: the registry key and the JSON-encoded arguments
(the source stringifies the JSON value before dispatch). -/
structure ToolFunction where
  name : String
  arguments : String
deriving DecidableEq, Repr

/-- A `ToolCall` block: primary id, optional secondary `call_id`, and the function. -/
structure ToolCall where
  id : String
  call_id : Option String
  function : ToolFunction
deriving DecidableEq, Repr

/-- Content blocks of an Assistant message: `Text` or `ToolCall`. -/
inductive AssistantContent where
  | text (text : String)
  | toolCall (tc : ToolCall)
deriving DecidableEq, Repr

/-- Content blocks of a User message; `toolResult` is the block built by the tool
invocation stage (`tool_result` / `tool_result_with_call_id`). -/
inductive UserContent where
  | text (text : String)
  | toolResult (id : String) (call_id : Option String) (content : OneOrMany String)
deriving DecidableEq, Repr

/-- A chat message: `User { content }` or `Assistant { id, content }`. -/
inductive Message where
  | user (content : OneOrMany UserContent)
  | assistant (id : Option String) (content : OneOrMany AssistantContent)
deriving DecidableEq, Repr

/-- A provider response; `choice` is the ordered sequence of assistant content blocks. -/
structure Response where
  choice : OneOrMany AssistantContent
deriving DecidableEq, Repr

/-- Error returned by the tool registry (`ToolSetError`), kept abstract as a tag. -/
structure ToolSetError where
  msg : String
deriving DecidableEq, Repr

/-- Completion errors: a provider failure, or `RequestError` wrapping a tool failure. -/
inductive CompletionError where
  | providerError (msg : String)
  | requestError (e : ToolSetError)
deriving DecidableEq, Repr

/-- Errors of `PromptRequest::send`: a wrapped `CompletionError`, or `MaxDepthError`
carrying the configured `max_depth`, the history snapshot and the unresolved prompt. -/
inductive PromptError where
  | completionError (e : CompletionError)
  | maxDepthError (max_depth : Nat) (chat_history : List Message) (prompt : Message)
deriving DecidableEq, Repr

/-- The partition predicate `matches!(choice, AssistantContent::ToolCall(_))`. -/
def isToolCall : AssistantContent → Bool
  | .toolCall _ => true
  | .text _ => false

/-- The text that the merge step extracts from a block (`filter_map` keeping `Text`). -/
def textOf : AssistantContent → Option String
  | .text t => some t
  | .toolCall _ => none

/-- One element of the tool-invocation stream: dispatches a `ToolCall` block to the
registry and wraps the output as a `ToolResult` block, keyed by the call's `id` and,
when present, the secondary `call_id`.  A `Text` element hits the source's
`unreachable!`, modelled as `none`. -/
def callTool (tools : String → String → Except ToolSetError String) :
    AssistantContent → Option (Except ToolSetError UserContent)
  | .toolCall tc =>
    some (match tools tc.function.name tc.function.arguments with
      | .error e => .error e
      | .ok output =>
        match tc.call_id with
        | some call_id => .ok (.toolResult tc.id (some call_id) (OneOrMany.one output))
        | none => .ok (.toolResult tc.id none (OneOrMany.one output)))
  | .text _ => none

/-- The (name, arguments) pair a `ToolCall` block sends to the registry; a `Text`
block dispatches nothing. -/
def dispatchOf : AssistantContent → Option (String × String)
  | .toolCall tc => some (tc.function.name, tc.function.arguments)
  | .text _ => none

/-- The tool-invocation stage over the partitioned tool-call blocks, instrumented with
the ordered list of registry dispatches.  Every element is awaited in order and all are
attempted regardless of earlier failures, mirroring
`stream::iter(tool_calls).then(..).collect::<Vec<Result<_, _>>>`; `none` marks the
`unreachable!` panic on a non-tool-call element. -/
def runToolCalls (tools : String → String → Except ToolSetError String) :
    List AssistantContent →
      Option (List (String × String) × List (Except ToolSetError UserContent))
  | [] => some ([], [])
  | c :: rest =>
    match dispatchOf c, callTool tools c with
    | some d, some r =>
      match runToolCalls tools rest with
      | some (tr, rs) => some (d :: tr, r :: rs)
      | none => none
    | _, _ => none

/-- Rust's `into_iter().collect::<Result<Vec<_>, _>>()`: the first error in order if
any element failed, otherwise the list of all values. -/
def collectResults : List (Except ToolSetError UserContent) →
    Except ToolSetError (List UserContent)
  | [] => .ok []
  | .error e :: _ => .error e
  | .ok v :: rest =>
    match collectResults rest with
    | .error e => .error e
    | .ok vs => .ok (v :: vs)

/-- Everything observable about one execution of `send`: the returned value, the final
chat history, the number of completion calls issued, and the registry dispatches made. -/
structure SendOutcome where
  result : Except PromptError String
  history : List Message
  calls : Nat
  dispatches : List (String × String)

/-- The loop of `PromptRequest::send`, instrumented with the number of completion calls
issued and the ordered registry dispatches.  Each iteration reads the last history
message, trips the budget check when `current_max_depth > max_depth + 1`, otherwise
issues one completion call, pushes the Assistant message, and either returns the merged
texts (no tool calls) or runs the tool stage and pushes the User tool-result message.
`none` models a panic (`expect` on an empty history, `unreachable!` in the stream, or
`expect` on `OneOrMany::many`). -/
def sendLoop (responses : Nat → Except CompletionError Response)
    (tools : String → String → Except ToolSetError String) (max_depth : Nat)
    (current_max_depth : Nat) (chat_history : List Message) (calls : Nat)
    (dispatches : List (String × String)) : Option SendOutcome :=
  match chat_history.getLast? with
  | none => none
  | some prompt =>
    if h : current_max_depth > max_depth + 1 then
      some ⟨.error (.maxDepthError max_depth chat_history prompt), chat_history, calls,
        dispatches⟩
    else
      match responses calls with
      | .error e => some ⟨.error (.completionError e), chat_history, calls + 1, dispatches⟩
      | .ok resp =>
        match resp.choice.toList.partition isToolCall with
        | (tool_calls, texts) =>
          if tool_calls.isEmpty then
            some ⟨.ok (String.intercalate "\n" (texts.filterMap textOf)),
              chat_history ++ [Message.assistant none resp.choice], calls + 1, dispatches⟩
          else
            match runToolCalls tools tool_calls with
            | none => none
            | some (tr, rs) =>
              match collectResults rs with
              | .error e =>
                some ⟨.error (.completionError (.requestError e)),
                  chat_history ++ [Message.assistant none resp.choice], calls + 1,
                  dispatches ++ tr⟩
              | .ok tool_content =>
                match OneOrMany.many tool_content with
                | none => none
                | some oom =>
                  sendLoop responses tools max_depth (current_max_depth + 1)
                    (chat_history ++ [Message.assistant none resp.choice] ++
                      [Message.user oom]) (calls + 1) (dispatches ++ tr)
termination_by max_depth + 2 - current_max_depth
decreasing_by omega

/-- The chat history at loop entry: the caller-supplied history with the prompt pushed,
or a fresh one holding only the prompt. -/
def initialHistory (chat_history : Option (List Message)) (prompt : Message) :
    List Message :=
  match chat_history with
  | some h => h ++ [prompt]
  | none => [prompt]

/-- `PromptRequest::send`: push the prompt, then run the loop with the counter at 0. -/
def send (responses : Nat → Except CompletionError Response)
    (tools : String → String → Except ToolSetError String) (max_depth : Nat)
    (prompt : Message) (chat_history : Option (List Message)) : Option SendOutcome :=
  sendLoop responses tools max_depth 0 (initialHistory chat_history prompt) 0 []

/-- The builder `PromptRequest`, with the borrowed pieces modelled by value. -/
structure PromptRequest (Agent : Type) where
  prompt : Message
  chat_history : Option (List Message)
  max_depth : Nat
  agent : Agent

/-- Constructor `PromptRequest::new`. -/
def PromptRequest.new {Agent : Type} (agent : Agent) (prompt : Message) :
    PromptRequest Agent :=
  ⟨prompt, none, 0, agent⟩

/-- Builder method `multi_turn`: a new request with only `max_depth` changed. -/
def PromptRequest.multi_turn {Agent : Type} (r : PromptRequest Agent) (depth : Nat) :
    PromptRequest Agent :=
  ⟨r.prompt, r.chat_history, depth, r.agent⟩

/-- Builder method `with_history`: a new request with only `chat_history` changed. -/
def PromptRequest.with_history {Agent : Type} (r : PromptRequest Agent)
    (history : List Message) : PromptRequest Agent :=
  ⟨r.prompt, some history, r.max_depth, r.agent⟩

/-- The record carried by a `ToolCall` block, if any. -/
def toolCallOf : AssistantContent → Option ToolCall
  | .toolCall tc => some tc
  | .text _ => none

/-- The tool-call records carried by the `ToolCall` blocks of a response, in order. -/
def toolCallRecords (resp : Response) : List ToolCall :=
  resp.choice.toList.filterMap toolCallOf

/-- Whether a response contains at least one tool-call block (the negation of the
source's `tool_calls.is_empty()` test on the partition). -/
def hasToolCalls (resp : Response) : Bool :=
  !(resp.choice.toList.filter isToolCall).isEmpty

/-- The outcome of dispatching one tool call: the registry's error, or the
`ToolResult` block keyed by the call's `id` and its optional secondary `call_id`. -/
def resultOfCall (tools : String → String → Except ToolSetError String) (tc : ToolCall) :
    Except ToolSetError UserContent :=
  match tools tc.function.name tc.function.arguments with
  | .error e => .error e
  | .ok output => .ok (.toolResult tc.id tc.call_id (OneOrMany.one output))

/-- The `ToolResult` block for a call whose registry dispatch succeeds. -/
def toolResultOk (tools : String → String → Except ToolSetError String) (tc : ToolCall) :
    Option UserContent :=
  match tools tc.function.name tc.function.arguments with
  | .ok output => some (.toolResult tc.id tc.call_id (OneOrMany.one output))
  | .error _ => none

/-- The tool-result blocks of the turn's follow-up User message: one per succeeding
tool call, in the original order of the tool-call blocks. -/
def toolResultsOf (tools : String → String → Except ToolSetError String)
    (resp : Response) : List UserContent :=
  (toolCallRecords resp).filterMap (toolResultOk tools)

/-- Whether every tool call of a response succeeds against the registry. -/
def allToolsOk (tools : String → String → Except ToolSetError String)
    (resp : Response) : Bool :=
  (toolCallRecords resp).all fun tc => (tools tc.function.name tc.function.arguments).isOk

/-- Whether the i-th completion call yields an Ok response that carries tool calls,
all of which succeed against the registry: the condition for the loop to take a full
tool-resolution cycle at turn i. -/
def turnOkTC (responses : Nat → Except CompletionError Response)
    (tools : String → String → Except ToolSetError String) (i : Nat) : Bool :=
  match responses i with
  | .ok resp => hasToolCalls resp && allToolsOk tools resp
  | .error _ => false

/-- The registry dispatches made while resolving one response's tool calls, in order. -/
def turnDispatches (resp : Response) : List (String × String) :=
  (toolCallRecords resp).map fun tc => (tc.function.name, tc.function.arguments)

/-- The messages one full tool-resolution cycle appends to history: the Assistant
message carrying the full response content, then the User tool-result message (absent
only in the degenerate case where no tool result was produced). -/
def turnMessages (tools : String → String → Except ToolSetError String)
    (resp : Response) : List Message :=
  Message.assistant none resp.choice ::
    (match OneOrMany.many (toolResultsOf tools resp) with
     | some oom => [Message.user oom]
     | none => [])

/-- The messages appended to history by the first k full tool-resolution cycles. -/
def runHistory (responses : Nat → Except CompletionError Response)
    (tools : String → String → Except ToolSetError String) : Nat → List Message
  | 0 => []
  | k + 1 => runHistory responses tools k ++
      (match responses k with
       | .ok resp => turnMessages tools resp
       | .error _ => [])

/-- The registry dispatches made during the first k full tool-resolution cycles. -/
def runDispatches (responses : Nat → Except CompletionError Response) :
    Nat → List (String × String)
  | 0 => []
  | k + 1 => runDispatches responses k ++
      (match responses k with
       | .ok resp => turnDispatches resp
       | .error _ => [])

/-- The success value of `send`: the texts of the final response's `Text` blocks, in
order, joined by a newline. -/
def mergedTextsOf (resp : Response) : String :=
  String.intercalate "\n"
    ((resp.choice.toList.filter (not ∘ isToolCall)).filterMap textOf)

/-! Concrete fixtures: a provider and registry used to exercise the definitions on
closed inputs. -/

/-- Fixture: a tool call without a secondary call id. -/
def wCall : ToolCall := ⟨"id1", none, ⟨"f", "args"⟩⟩

/-- Fixture: a tool call with a secondary call id. -/
def wCall2 : ToolCall := ⟨"id2", some "grp", ⟨"g", "args2"⟩⟩

/-- Fixture: a response mixing two tool calls and a text block. -/
def wRespTC : Response := ⟨⟨.toolCall wCall, [.text "thinking", .toolCall wCall2]⟩⟩

/-- Fixture: a response with text blocks only. -/
def wRespText : Response := ⟨⟨.text "hello", [.text "world"]⟩⟩

/-- Fixture: a registry on which every dispatch succeeds. -/
def wTools : String → String → Except ToolSetError String :=
  fun n _ => .ok ("out-" ++ n)

/-- Fixture: a registry on which only the tool named f succeeds. -/
def wToolsFail : String → String → Except ToolSetError String :=
  fun n _ => if n = "f" then .ok "fine" else .error ⟨"boom"⟩

/-- Fixture: an initiating prompt. -/
def wPrompt : Message := .user ⟨.text "q", []⟩

/-- Fixture: a provider that always answers with tool calls. -/
def wResponsesTC : Nat → Except CompletionError Response := fun _ => .ok wRespTC

/-- Fixture: a provider answering tool calls once, then text. -/
def wResponsesMixed : Nat → Except CompletionError Response :=
  fun i => if i = 0 then .ok wRespTC else .ok wRespText

/-- Fixture: a provider that always answers with text only. -/
def wResponsesText : Nat → Except CompletionError Response := fun _ => .ok wRespText

/-! Basic lemmas about the tool-invocation stage. -/

lemma callTool_toolCall (tools : String → String → Except ToolSetError String)
    (tc : ToolCall) : callTool tools (.toolCall tc) = some (resultOfCall tools tc) := by
  obtain ⟨id, cid, f⟩ := tc
  cases h : tools f.name f.arguments with
  | error e => simp [callTool, resultOfCall, h]
  | ok output => cases cid <;> simp [callTool, resultOfCall, h]

lemma filter_isToolCall (l : List AssistantContent) :
    l.filter isToolCall = (l.filterMap toolCallOf).map AssistantContent.toolCall := by
  induction l with
  | nil => rfl
  | cons c rest ih => cases c <;> simp [List.filter, List.filterMap, isToolCall, toolCallOf, ih]

lemma runToolCalls_map (tools : String → String → Except ToolSetError String)
    (tcs : List ToolCall) :
    runToolCalls tools (tcs.map AssistantContent.toolCall) =
      some (tcs.map (fun tc => (tc.function.name, tc.function.arguments)),
            tcs.map (resultOfCall tools)) := by
  induction tcs with
  | nil => rfl
  | cons tc rest ih => simp [runToolCalls, dispatchOf, callTool_toolCall, ih]

lemma collectResults_map_ok (vs : List UserContent) :
    collectResults (vs.map Except.ok) = .ok vs := by
  induction vs with
  | nil => rfl
  | cons v rest ih => simp [collectResults, ih]

lemma collectResults_first_error (rs₁ : List (Except ToolSetError UserContent))
    (e : ToolSetError) (rs₂ : List (Except ToolSetError UserContent))
    (h : ∀ r ∈ rs₁, ∃ v, r = .ok v) :
    collectResults (rs₁ ++ .error e :: rs₂) = .error e := by
  induction rs₁ with
  | nil => rfl
  | cons r rest ih =>
    obtain ⟨v, rfl⟩ := h r (by simp)
    simp [collectResults, ih (fun r hr => h r (by simp [hr]))]

lemma collectResults_cons_ne_nil (r : Except ToolSetError UserContent)
    (rs : List (Except ToolSetError UserContent)) (vs : List UserContent)
    (h : collectResults (r :: rs) = .ok vs) : vs ≠ [] := by
  cases r with
  | error e => simp [collectResults] at h
  | ok v =>
    rw [collectResults] at h
    cases hr : collectResults rs with
    | error e => rw [hr] at h; simp at h
    | ok vs₂ =>
      rw [hr] at h
      injection h with h
      rw [← h]
      simp

lemma resultOfCall_isOk {tools : String → String → Except ToolSetError String}
    {t : ToolCall} (h : (tools t.function.name t.function.arguments).isOk = true) :
    ∃ v, resultOfCall tools t = .ok v := by
  cases ho : tools t.function.name t.function.arguments with
  | error e => rw [ho] at h; exact absurd h (Bool.noConfusion)
  | ok output =>
    exact ⟨.toolResult t.id t.call_id (OneOrMany.one output), by simp [resultOfCall, ho]⟩

lemma map_resultOfCall (tools : String → String → Except ToolSetError String)
    (tcs : List ToolCall)
    (h : ∀ tc ∈ tcs, (tools tc.function.name tc.function.arguments).isOk = true) :
    tcs.map (resultOfCall tools) = (tcs.filterMap (toolResultOk tools)).map Except.ok := by
  induction tcs with
  | nil => rfl
  | cons tc rest ih =>
    have h1 := h tc (by simp)
    cases ho : tools tc.function.name tc.function.arguments with
    | error e => rw [ho] at h1; exact absurd h1 (Bool.noConfusion)
    | ok output =>
      simp [resultOfCall, toolResultOk, ho, List.filterMap,
        ih (fun t ht => h t (by simp [ht]))]

lemma toolCallRecords_ne_nil {resp : Response} (htc : hasToolCalls resp = true) :
    toolCallRecords resp ≠ [] := by
  intro h
  rw [hasToolCalls, filter_isToolCall] at htc
  rw [toolCallRecords] at h
  rw [h] at htc
  simp at htc

lemma allToolsOk_forall {tools : String → String → Except ToolSetError String}
    {resp : Response} (hok : allToolsOk tools resp = true) :
    ∀ tc ∈ toolCallRecords resp, (tools tc.function.name tc.function.arguments).isOk = true := by
  rw [allToolsOk, List.all_eq_true] at hok
  exact hok

lemma toolResultsOf_ne_nil {tools : String → String → Except ToolSetError String}
    {resp : Response} (htc : hasToolCalls resp = true)
    (hok : allToolsOk tools resp = true) : toolResultsOf tools resp ≠ [] := by
  have hrec := toolCallRecords_ne_nil htc
  rw [toolResultsOf]
  cases hr : toolCallRecords resp with
  | nil => exact absurd hr hrec
  | cons tc rest =>
    have h1 : (tools tc.function.name tc.function.arguments).isOk = true :=
      allToolsOk_forall hok tc (by rw [hr]; simp)
    cases ho : tools tc.function.name tc.function.arguments with
    | error e => rw [ho] at h1; exact absurd h1 (Bool.noConfusion)
    | ok output => simp [List.filterMap, toolResultOk, ho]

lemma filterMap_textOf_filter (l : List AssistantContent) :
    (l.filter (not ∘ isToolCall)).filterMap textOf = l.filterMap textOf := by
  induction l with
  | nil => rfl
  | cons c rest ih =>
    cases c <;> simp [isToolCall, textOf, List.filter, List.filterMap, ih]

lemma mergedTextsOf_eq (resp : Response) :
    mergedTextsOf resp =
      String.intercalate "\n" (resp.choice.toList.filterMap textOf) := by
  rw [mergedTextsOf, filterMap_textOf_filter]

lemma filterMap_toolResultOk_eq_map (tools : String → String → Except ToolSetError String)
    (f : ToolCall → String) (tcs : List ToolCall)
    (hf : ∀ tc ∈ tcs, tools tc.function.name tc.function.arguments = .ok (f tc)) :
    tcs.filterMap (toolResultOk tools) =
      tcs.map (fun tc => UserContent.toolResult tc.id tc.call_id (OneOrMany.one (f tc))) := by
  induction tcs with
  | nil => rfl
  | cons tc rest ih =>
    have h1 := hf tc (by simp)
    simp [List.filterMap, toolResultOk, h1, ih (fun t ht => hf t (by simp [ht]))]

/-! Step lemmas: one unfolding of the loop for each of its exits and for its
recursive case. -/

lemma sendLoop_depth_exceeded {responses : Nat → Except CompletionError Response}
    {tools : String → String → Except ToolSetError String}
    {max_depth current_max_depth : Nat} {chat_history : List Message} {calls : Nat}
    {dispatches : List (String × String)} {p : Message}
    (hp : chat_history.getLast? = some p)
    (hd : max_depth + 1 < current_max_depth) :
    sendLoop responses tools max_depth current_max_depth chat_history calls dispatches =
      some ⟨.error (.maxDepthError max_depth chat_history p), chat_history, calls,
        dispatches⟩ := by
  conv_lhs => unfold sendLoop
  rw [hp]
  simp [hd]

lemma sendLoop_provider_error {responses : Nat → Except CompletionError Response}
    {tools : String → String → Except ToolSetError String}
    {max_depth current_max_depth : Nat} {chat_history : List Message} {calls : Nat}
    {dispatches : List (String × String)} {p : Message} {e : CompletionError}
    (hp : chat_history.getLast? = some p)
    (hd : ¬ max_depth + 1 < current_max_depth)
    (hr : responses calls = .error e) :
    sendLoop responses tools max_depth current_max_depth chat_history calls dispatches =
      some ⟨.error (.completionError e), chat_history, calls + 1, dispatches⟩ := by
  conv_lhs => unfold sendLoop
  rw [hp]
  simp [hd, hr]

lemma sendLoop_no_toolcalls {responses : Nat → Except CompletionError Response}
    {tools : String → String → Except ToolSetError String}
    {max_depth current_max_depth : Nat} {chat_history : List Message} {calls : Nat}
    {dispatches : List (String × String)} {p : Message} {resp : Response}
    (hp : chat_history.getLast? = some p)
    (hd : ¬ max_depth + 1 < current_max_depth)
    (hr : responses calls = .ok resp)
    (htc : hasToolCalls resp = false) :
    sendLoop responses tools max_depth current_max_depth chat_history calls dispatches =
      some ⟨.ok (mergedTextsOf resp),
        chat_history ++ [Message.assistant none resp.choice], calls + 1, dispatches⟩ := by
  have hemp : (resp.choice.toList.filter isToolCall).isEmpty = true := by
    rw [hasToolCalls] at htc
    simpa using htc
  conv_lhs => unfold sendLoop
  rw [hp]
  simp [hd, hr, List.partition_eq_filter_filter, hemp, mergedTextsOf]

lemma sendLoop_toolcalls_ok {responses : Nat → Except CompletionError Response}
    {tools : String → String → Except ToolSetError String}
    {max_depth current_max_depth : Nat} {chat_history : List Message} {calls : Nat}
    {dispatches : List (String × String)} {p : Message} {resp : Response}
    (hp : chat_history.getLast? = some p)
    (hd : ¬ max_depth + 1 < current_max_depth)
    (hr : responses calls = .ok resp)
    (htc : hasToolCalls resp = true)
    (hok : allToolsOk tools resp = true) :
    sendLoop responses tools max_depth current_max_depth chat_history calls dispatches =
      sendLoop responses tools max_depth (current_max_depth + 1)
        (chat_history ++ turnMessages tools resp) (calls + 1)
        (dispatches ++ turnDispatches resp) := by
  obtain ⟨u, us, hcons⟩ : ∃ u us, toolResultsOf tools resp = u :: us := by
    cases h : toolResultsOf tools resp with
    | nil => exact absurd h (toolResultsOf_ne_nil htc hok)
    | cons u us => exact ⟨u, us, rfl⟩
  have hfil : resp.choice.toList.filter isToolCall =
      (toolCallRecords resp).map AssistantContent.toolCall := filter_isToolCall _
  have hne : ((toolCallRecords resp).map AssistantContent.toolCall).isEmpty = false := by
    cases h : toolCallRecords resp with
    | nil => exact absurd h (toolCallRecords_ne_nil htc)
    | cons a l => simp
  have hres : (toolCallRecords resp).map (resultOfCall tools) =
      (toolResultsOf tools resp).map Except.ok :=
    map_resultOfCall _ _ (allToolsOk_forall hok)
  have hmsgs : turnMessages tools resp =
      [Message.assistant none resp.choice, Message.user ⟨u, us⟩] := by
    simp [turnMessages, hcons, OneOrMany.many]
  conv_lhs => unfold sendLoop
  rw [hp]
  simp only [hd, dite_eq_ite, if_neg hd, hr, List.partition_eq_filter_filter, hfil, hne,
    runToolCalls_map, hres, collectResults_map_ok, hcons, OneOrMany.many, hmsgs,
    turnDispatches]
  simp [List.append_assoc]

lemma sendLoop_toolcalls_fail {responses : Nat → Except CompletionError Response}
    {tools : String → String → Except ToolSetError String}
    {max_depth current_max_depth : Nat} {chat_history : List Message} {calls : Nat}
    {dispatches : List (String × String)} {p : Message} {resp : Response}
    {tcs₁ tcs₂ : List ToolCall} {tc : ToolCall} {e : ToolSetError}
    (hp : chat_history.getLast? = some p)
    (hd : ¬ max_depth + 1 < current_max_depth)
    (hr : responses calls = .ok resp)
    (hrec : toolCallRecords resp = tcs₁ ++ tc :: tcs₂)
    (h1 : ∀ t ∈ tcs₁, (tools t.function.name t.function.arguments).isOk = true)
    (h2 : resultOfCall tools tc = .error e) :
    sendLoop responses tools max_depth current_max_depth chat_history calls dispatches =
      some ⟨.error (.completionError (.requestError e)),
        chat_history ++ [Message.assistant none resp.choice], calls + 1,
        dispatches ++ turnDispatches resp⟩ := by
  have hfil : resp.choice.toList.filter isToolCall =
      (toolCallRecords resp).map AssistantContent.toolCall := filter_isToolCall _
  have hne : ((toolCallRecords resp).map AssistantContent.toolCall).isEmpty = false := by
    rw [hrec]
    cases tcs₁ <;> simp
  have hcol : collectResults ((toolCallRecords resp).map (resultOfCall tools)) =
      .error e := by
    rw [hrec, List.map_append, List.map_cons, h2]
    exact collectResults_first_error _ _ _ (by
      intro r hrm
      rw [List.mem_map] at hrm
      obtain ⟨t, ht, rfl⟩ := hrm
      exact resultOfCall_isOk (h1 t ht))
  conv_lhs => unfold sendLoop
  rw [hp]
  simp [hd, hr, List.partition_eq_filter_filter, hfil, hne, runToolCalls_map, hcol,
    turnDispatches]

/-! Global lemmas about the loop: it never panics on a nonempty history, it only
appends to the history, and full tool-resolution cycles compose. -/

lemma partition_fst_eq {tool_calls texts : List AssistantContent} {l : List AssistantContent}
    (hpart : List.partition isToolCall l = (tool_calls, texts)) :
    tool_calls = (l.filterMap toolCallOf).map AssistantContent.toolCall := by
  rw [List.partition_eq_filter_filter] at hpart
  injection hpart with h1 h2
  rw [← h1, filter_isToolCall]

lemma sendLoop_isSome (responses : Nat → Except CompletionError Response)
    (tools : String → String → Except ToolSetError String) (max_depth : Nat) :
    ∀ current chat_history calls dispatches, chat_history ≠ ([] : List Message) →
      (sendLoop responses tools max_depth current chat_history calls
        dispatches).isSome = true := by
  intro current chat_history calls dispatches
  induction current, chat_history, calls, dispatches
    using sendLoop.induct responses tools max_depth with
  | case1 current ch calls disp hnone =>
    intro hne
    have h := List.getLast?_isSome.mpr hne
    rw [hnone] at h
    exact absurd h (by simp)
  | case2 current ch calls disp p hp hd =>
    intro _
    rw [sendLoop_depth_exceeded hp hd]
    rfl
  | case3 current ch calls disp p hp hd e hr =>
    intro _
    rw [sendLoop_provider_error hp hd hr]
    rfl
  | case4 current ch calls disp p hp hd resp hr tool_calls texts hpart hemp =>
    intro _
    have htc : hasToolCalls resp = false := by
      rw [List.partition_eq_filter_filter] at hpart
      injection hpart with h1 h2
      rw [hasToolCalls, h1]
      simpa using hemp
    rw [sendLoop_no_toolcalls hp hd hr htc]
    rfl
  | case5 current ch calls disp p hp hd resp hr tool_calls texts hpart hne2 hnone =>
    intro _
    exfalso
    rw [partition_fst_eq hpart, runToolCalls_map] at hnone
    exact Option.noConfusion hnone
  | case6 current ch calls disp p hp hd resp hr tool_calls texts hpart hne2 tr rs hrun e
      hcol =>
    intro _
    unfold sendLoop
    rw [hp]
    simp only [hd, dite_eq_ite, if_neg hd, hr, hpart, if_neg hne2, hrun, hcol]
    rfl
  | case7 current ch calls disp p hp hd resp hr tool_calls texts hpart hne2 tr rs hrun vs
      hcol hmany =>
    intro _
    exfalso
    have hvs : vs = [] := by
      cases vs with
      | nil => rfl
      | cons a l => simp [OneOrMany.many] at hmany
    rw [partition_fst_eq hpart] at hrun hne2
    rw [runToolCalls_map] at hrun
    injection hrun with hrun
    have hrs : rs = (resp.choice.toList.filterMap toolCallOf).map (resultOfCall tools) := by
      have h2 := congrArg Prod.snd hrun
      simpa using h2.symm
    cases hrec : resp.choice.toList.filterMap toolCallOf with
    | nil => rw [hrec] at hne2; simp at hne2
    | cons t ts =>
      rw [hrec, List.map_cons] at hrs
      rw [hrs] at hcol
      exact (collectResults_cons_ne_nil _ _ _ hcol) hvs
  | case8 current ch calls disp p hp hd resp hr tool_calls texts hpart hne2 tr rs hrun vs
      hcol oom hmany ih =>
    intro _
    have hrec := ih (by simp)
    unfold sendLoop
    rw [hp]
    simp only [hd, dite_eq_ite, if_neg hd, hr, hpart, if_neg hne2, hrun, hcol, hmany]
    exact hrec

lemma sendLoop_history_prefix (responses : Nat → Except CompletionError Response)
    (tools : String → String → Except ToolSetError String) (max_depth : Nat) :
    ∀ current chat_history calls dispatches out,
      sendLoop responses tools max_depth current chat_history calls dispatches =
        some out →
      ∃ t, out.history = chat_history ++ t := by
  intro current chat_history calls dispatches
  induction current, chat_history, calls, dispatches
    using sendLoop.induct responses tools max_depth with
  | case1 current ch calls disp hnone =>
    intro out hout
    unfold sendLoop at hout
    rw [hnone] at hout
    exact Option.noConfusion hout
  | case2 current ch calls disp p hp hd =>
    intro out hout
    rw [sendLoop_depth_exceeded hp hd] at hout
    injection hout with hout
    exact ⟨[], by rw [← hout]; simp⟩
  | case3 current ch calls disp p hp hd e hr =>
    intro out hout
    rw [sendLoop_provider_error hp hd hr] at hout
    injection hout with hout
    exact ⟨[], by rw [← hout]; simp⟩
  | case4 current ch calls disp p hp hd resp hr tool_calls texts hpart hemp =>
    intro out hout
    have htc : hasToolCalls resp = false := by
      rw [List.partition_eq_filter_filter] at hpart
      injection hpart with h1 h2
      rw [hasToolCalls, h1]
      simpa using hemp
    rw [sendLoop_no_toolcalls hp hd hr htc] at hout
    injection hout with hout
    exact ⟨[Message.assistant none resp.choice], by rw [← hout]⟩
  | case5 current ch calls disp p hp hd resp hr tool_calls texts hpart hne2 hnone =>
    intro out hout
    exfalso
    rw [partition_fst_eq hpart, runToolCalls_map] at hnone
    exact Option.noConfusion hnone
  | case6 current ch calls disp p hp hd resp hr tool_calls texts hpart hne2 tr rs hrun e
      hcol =>
    intro out hout
    unfold sendLoop at hout
    rw [hp] at hout
    simp only [hd, dite_eq_ite, if_neg hd, hr, hpart, hne2, hrun, hcol] at hout
    injection hout with hout
    exact ⟨[Message.assistant none resp.choice], by rw [← hout]⟩
  | case7 current ch calls disp p hp hd resp hr tool_calls texts hpart hne2 tr rs hrun vs
      hcol hmany =>
    intro out hout
    exfalso
    have hvs : vs = [] := by
      cases vs with
      | nil => rfl
      | cons a l => simp [OneOrMany.many] at hmany
    rw [partition_fst_eq hpart] at hrun hne2
    rw [runToolCalls_map] at hrun
    injection hrun with hrun
    have hrs : rs = (resp.choice.toList.filterMap toolCallOf).map (resultOfCall tools) := by
      have h2 := congrArg Prod.snd hrun
      simpa using h2.symm
    cases hrec : resp.choice.toList.filterMap toolCallOf with
    | nil => rw [hrec] at hne2; simp at hne2
    | cons t ts =>
      rw [hrec, List.map_cons] at hrs
      rw [hrs] at hcol
      exact (collectResults_cons_ne_nil _ _ _ hcol) hvs
  | case8 current ch calls disp p hp hd resp hr tool_calls texts hpart hne2 tr rs hrun vs
      hcol oom hmany ih =>
    intro out hout
    unfold sendLoop at hout
    rw [hp] at hout
    simp only [hd, dite_eq_ite, if_neg hd, hr, hpart, hne2, hrun, hcol, hmany] at hout
    obtain ⟨t, ht⟩ := ih out (by
      by_cases hc : tool_calls.isEmpty = true
      · exact absurd hc hne2
      · simpa [hc] using hout)
    refine ⟨[Message.assistant none resp.choice] ++ [Message.user oom] ++ t, ?_⟩
    rw [ht]
    simp

lemma sendLoop_run {responses : Nat → Except CompletionError Response}
    {tools : String → String → Except ToolSetError String} {max_depth : Nat}
    {h0 : List Message} (hne : h0 ≠ [])
    (k : Nat) (hk : k ≤ max_depth + 2)
    (h : ∀ i < k, turnOkTC responses tools i = true) :
    sendLoop responses tools max_depth 0 h0 0 [] =
      sendLoop responses tools max_depth k (h0 ++ runHistory responses tools k) k
        (runDispatches responses k) := by
  induction k with
  | zero => simp [runHistory, runDispatches]
  | succ k ih =>
    rw [ih (by omega) (fun i hi => h i (by omega))]
    have hi := h k (by omega)
    rw [turnOkTC] at hi
    cases hresp : responses k with
    | error e => rw [hresp] at hi; exact absurd hi (Bool.noConfusion)
    | ok resp =>
      rw [hresp] at hi
      rw [Bool.and_eq_true] at hi
      obtain ⟨htc, hok⟩ := hi
      have hne2 : (h0 ++ runHistory responses tools k) ≠ [] := by
        cases h0 with
        | nil => exact absurd rfl hne
        | cons a l => simp
      obtain ⟨p, hp⟩ := Option.isSome_iff_exists.mp (List.getLast?_isSome.mpr hne2)
      rw [sendLoop_toolcalls_ok hp (by omega) hresp htc hok]
      simp [runHistory, runDispatches, hresp, List.append_assoc]

/-! Composition lemmas: full characterizations of `send` for each terminal scenario. -/

lemma initialHistory_ne_nil (h0 : Option (List Message)) (prompt : Message) :
    initialHistory h0 prompt ≠ [] := by
  cases h0 <;> simp [initialHistory]

lemma turnOkTC_elim {responses : Nat → Except CompletionError Response}
    {tools : String → String → Except ToolSetError String} {i : Nat}
    (h : turnOkTC responses tools i = true) :
    ∃ resp, responses i = .ok resp ∧ hasToolCalls resp = true ∧
      allToolsOk tools resp = true := by
  rw [turnOkTC] at h
  cases hr : responses i with
  | error e => rw [hr] at h; exact absurd h (Bool.noConfusion)
  | ok resp =>
    rw [hr] at h
    rw [Bool.and_eq_true] at h
    exact ⟨resp, rfl, h.1, h.2⟩

lemma toolResultsOf_cons {tools : String → String → Except ToolSetError String}
    {resp : Response} (htc : hasToolCalls resp = true)
    (hok : allToolsOk tools resp = true) :
    ∃ u us, toolResultsOf tools resp = u :: us := by
  cases h : toolResultsOf tools resp with
  | nil => exact absurd h (toolResultsOf_ne_nil htc hok)
  | cons u us => exact ⟨u, us, rfl⟩

lemma send_run_success {responses : Nat → Except CompletionError Response}
    {tools : String → String → Except ToolSetError String} {max_depth : Nat}
    {prompt : Message} {h0 : Option (List Message)} {k : Nat} {resp : Response}
    (hk : k < max_depth + 2)
    (h : ∀ i < k, turnOkTC responses tools i = true)
    (hresp : responses k = .ok resp)
    (htc : hasToolCalls resp = false) :
    send responses tools max_depth prompt h0 =
      some ⟨.ok (mergedTextsOf resp),
        initialHistory h0 prompt ++ runHistory responses tools k ++
          [Message.assistant none resp.choice], k + 1, runDispatches responses k⟩ := by
  have hne := initialHistory_ne_nil h0 prompt
  rw [send, sendLoop_run hne k (by omega) h]
  have hne2 : initialHistory h0 prompt ++ runHistory responses tools k ≠ [] := by
    cases hh : initialHistory h0 prompt with
    | nil => exact absurd hh hne
    | cons a l => simp
  obtain ⟨p, hp⟩ := Option.isSome_iff_exists.mp (List.getLast?_isSome.mpr hne2)
  rw [sendLoop_no_toolcalls hp (by omega) hresp htc]

lemma runHistory_last {responses : Nat → Except CompletionError Response}
    {tools : String → String → Except ToolSetError String} {k : Nat} {resp : Response}
    {u : UserContent} {us : List UserContent}
    (hresp : responses k = .ok resp)
    (hcons : toolResultsOf tools resp = u :: us) (l : List Message) :
    (l ++ runHistory responses tools (k + 1)).getLast? =
      some (Message.user ⟨u, us⟩) := by
  have hmsgs : turnMessages tools resp =
      [Message.assistant none resp.choice, Message.user ⟨u, us⟩] := by
    simp [turnMessages, hcons, OneOrMany.many]
  have hrh : runHistory responses tools (k + 1) =
      runHistory responses tools k ++
        [Message.assistant none resp.choice, Message.user ⟨u, us⟩] := by
    rw [runHistory, hresp]
    simp [hmsgs]
  rw [hrh]
  simp [List.getLast?_append]

lemma send_run_depth {responses : Nat → Except CompletionError Response}
    {tools : String → String → Except ToolSetError String} {max_depth : Nat}
    {prompt : Message} {h0 : Option (List Message)} {resp : Response}
    {u : UserContent} {us : List UserContent}
    (h : ∀ i < max_depth + 2, turnOkTC responses tools i = true)
    (hresp : responses (max_depth + 1) = .ok resp)
    (hcons : toolResultsOf tools resp = u :: us) :
    send responses tools max_depth prompt h0 =
      some ⟨.error (.maxDepthError max_depth
          (initialHistory h0 prompt ++ runHistory responses tools (max_depth + 2))
          (Message.user ⟨u, us⟩)),
        initialHistory h0 prompt ++ runHistory responses tools (max_depth + 2),
        max_depth + 2, runDispatches responses (max_depth + 2)⟩ := by
  have hne := initialHistory_ne_nil h0 prompt
  rw [send, sendLoop_run hne (max_depth + 2) (by omega) h]
  rw [sendLoop_depth_exceeded (runHistory_last hresp hcons _) (by omega)]

lemma send_run_toolfail {responses : Nat → Except CompletionError Response}
    {tools : String → String → Except ToolSetError String} {max_depth : Nat}
    {prompt : Message} {h0 : Option (List Message)} {k : Nat} {resp : Response}
    {tcs₁ tcs₂ : List ToolCall} {tc : ToolCall} {e : ToolSetError}
    (hk : k < max_depth + 2)
    (h : ∀ i < k, turnOkTC responses tools i = true)
    (hresp : responses k = .ok resp)
    (hrec : toolCallRecords resp = tcs₁ ++ tc :: tcs₂)
    (h1 : ∀ t ∈ tcs₁, (tools t.function.name t.function.arguments).isOk = true)
    (h2 : resultOfCall tools tc = .error e) :
    send responses tools max_depth prompt h0 =
      some ⟨.error (.completionError (.requestError e)),
        initialHistory h0 prompt ++ runHistory responses tools k ++
          [Message.assistant none resp.choice],
        k + 1, runDispatches responses k ++ turnDispatches resp⟩ := by
  have hne := initialHistory_ne_nil h0 prompt
  rw [send, sendLoop_run hne k (by omega) h]
  have hne2 : initialHistory h0 prompt ++ runHistory responses tools k ≠ [] := by
    cases hh : initialHistory h0 prompt with
    | nil => exact absurd hh hne
    | cons a l => simp
  obtain ⟨p, hp⟩ := Option.isSome_iff_exists.mp (List.getLast?_isSome.mpr hne2)
  rw [sendLoop_toolcalls_fail hp (by omega) hresp hrec h1 h2]

/-! Claim theorems. -/

/-- C1: for every `max_depth` N and every sequence of provider responses, the loop
performs exactly t completion calls, where t is the smallest count at which either the
t-th response carries no tool-call blocks or the pre-call check trips
(counter > N + 1): if every response through index N + 1 carries succeeding tool
calls, exactly N + 2 completion calls are made and the request ends in
`MaxDepthError` — so at least one full tool-resolution cycle runs even when
`max_depth = 0`; and if the responses at indices below k all carry succeeding tool
calls while the response at index k carries none, exactly k + 1 completion calls are
made and the request succeeds. -/
theorem C1_turn_count (responses : Nat → Except CompletionError Response)
    (tools : String → String → Except ToolSetError String) (max_depth : Nat)
    (prompt : Message) (h0 : Option (List Message)) :
    ((∀ i < max_depth + 2, turnOkTC responses tools i = true) →
      ∃ out, send responses tools max_depth prompt h0 = some out ∧
        out.calls = max_depth + 2 ∧
        ∃ hist p, out.result = .error (.maxDepthError max_depth hist p)) ∧
    (∀ k < max_depth + 2, (∀ i < k, turnOkTC responses tools i = true) →
      ∀ resp, responses k = .ok resp → hasToolCalls resp = false →
        ∃ out, send responses tools max_depth prompt h0 = some out ∧
          out.calls = k + 1 ∧ out.result = .ok (mergedTextsOf resp)) := by
  constructor
  · intro h
    obtain ⟨resp, hresp, htc, hok⟩ := turnOkTC_elim (h (max_depth + 1) (by omega))
    obtain ⟨u, us, hcons⟩ := toolResultsOf_cons htc hok
    exact ⟨_, send_run_depth h hresp hcons, rfl, _, _, rfl⟩
  · intro k hk h resp hresp htc
    exact ⟨_, send_run_success hk h hresp htc, rfl, rfl⟩

/-- Witness for C1: at `max_depth = 0` with every response carrying succeeding tool
calls, exactly 2 completion calls are made and the request fails with
`MaxDepthError`. -/
theorem C1_turn_count_witness :
    (∀ i < (0 : Nat) + 2, turnOkTC wResponsesTC wTools i = true) ∧
    ∃ out, send wResponsesTC wTools 0 wPrompt none = some out ∧
      out.calls = 0 + 2 ∧
      ∃ hist p, out.result = .error (.maxDepthError 0 hist p) :=
  ⟨by decide, (C1_turn_count wResponsesTC wTools 0 wPrompt none).1 (by decide)⟩

/-- C2: when the turn budget trips, `send` fails with a `MaxDepthError` carrying the
configured `max_depth`, the full history at that moment, and an unresolved prompt
equal to the most recent history message, which is the User tool-result message
pushed at the end of the previous iteration; at `max_depth = 0` this happens after
exactly 2 completion calls (see the witness). -/
theorem C2_depth_error (responses : Nat → Except CompletionError Response)
    (tools : String → String → Except ToolSetError String) (max_depth : Nat)
    (prompt : Message) (h0 : Option (List Message))
    (h : ∀ i < max_depth + 2, turnOkTC responses tools i = true) :
    ∃ out resp u us,
      send responses tools max_depth prompt h0 = some out ∧
      out.calls = max_depth + 2 ∧
      responses (max_depth + 1) = .ok resp ∧
      toolResultsOf tools resp = u :: us ∧
      out.result = .error (.maxDepthError max_depth out.history
        (Message.user ⟨u, us⟩)) ∧
      out.history.getLast? = some (Message.user ⟨u, us⟩) := by
  obtain ⟨resp, hresp, htc, hok⟩ := turnOkTC_elim (h (max_depth + 1) (by omega))
  obtain ⟨u, us, hcons⟩ := toolResultsOf_cons htc hok
  exact ⟨_, resp, u, us, send_run_depth h hresp hcons, rfl, hresp, hcons, rfl,
    runHistory_last hresp hcons _⟩

/-- Witness for C2 at `max_depth = 0`: the budget trips after exactly 2 completion
calls and the unresolved prompt is the last tool-result message. -/
theorem C2_depth_error_witness :
    (∀ i < (0 : Nat) + 2, turnOkTC wResponsesTC wTools i = true) ∧
    ∃ out resp u us,
      send wResponsesTC wTools 0 wPrompt none = some out ∧
      out.calls = 0 + 2 ∧
      wResponsesTC (0 + 1) = .ok resp ∧
      toolResultsOf wTools resp = u :: us ∧
      out.result = .error (.maxDepthError 0 out.history (Message.user ⟨u, us⟩)) ∧
      out.history.getLast? = some (Message.user ⟨u, us⟩) :=
  ⟨by decide, C2_depth_error wResponsesTC wTools 0 wPrompt none (by decide)⟩

/-- C3: when the response of some turn carries no tool-call blocks, `send` returns
the texts of that response's `Text` blocks, in order, joined by a newline; when the
response carries no `Text` blocks the result is the empty string. -/
theorem C3_merged_texts (responses : Nat → Except CompletionError Response)
    (tools : String → String → Except ToolSetError String) (max_depth : Nat)
    (prompt : Message) (h0 : Option (List Message)) (k : Nat) (resp : Response)
    (hk : k < max_depth + 2)
    (h : ∀ i < k, turnOkTC responses tools i = true)
    (hresp : responses k = .ok resp)
    (htc : hasToolCalls resp = false) :
    ∃ out, send responses tools max_depth prompt h0 = some out ∧
      out.result = .ok (String.intercalate "\n" (resp.choice.toList.filterMap textOf)) ∧
      (resp.choice.toList.filterMap textOf = [] → out.result = .ok "") := by
  refine ⟨_, send_run_success hk h hresp htc, ?_, ?_⟩
  · simp [mergedTextsOf_eq]
  · intro hnil
    simp [mergedTextsOf_eq, hnil, String.intercalate]

/-- Witness for C3: the second response is text-only and the result is its two text
blocks joined by a newline. -/
theorem C3_merged_texts_witness :
    (1 : Nat) < 0 + 2 ∧ (∀ i < (1 : Nat), turnOkTC wResponsesMixed wTools i = true) ∧
    wResponsesMixed 1 = .ok wRespText ∧ hasToolCalls wRespText = false ∧
    ∃ out, send wResponsesMixed wTools 0 wPrompt none = some out ∧
      out.result = .ok (String.intercalate "\n"
        (wRespText.choice.toList.filterMap textOf)) ∧
      (wRespText.choice.toList.filterMap textOf = [] → out.result = .ok "") :=
  ⟨by decide, by decide, by decide, by decide,
    C3_merged_texts wResponsesMixed wTools 0 wPrompt none 1 wRespText (by decide)
      (by decide) (by decide) (by decide)⟩

/-- C4: for every `max_depth`, if the first response carries no tool-call blocks then
`send` succeeds after exactly one completion call. -/
theorem C4_first_turn_success (responses : Nat → Except CompletionError Response)
    (tools : String → String → Except ToolSetError String) (max_depth : Nat)
    (prompt : Message) (h0 : Option (List Message)) (resp : Response)
    (hresp : responses 0 = .ok resp)
    (htc : hasToolCalls resp = false) :
    ∃ out, send responses tools max_depth prompt h0 = some out ∧
      out.calls = 1 ∧ out.result = .ok (mergedTextsOf resp) :=
  ⟨_, send_run_success (by omega) (fun i hi => absurd hi (Nat.not_lt_zero i)) hresp htc,
    rfl, rfl⟩

/-- Witness for C4 with `max_depth = 7`: a text-only first response gives success
after one completion call. -/
theorem C4_first_turn_success_witness :
    wResponsesText 0 = .ok wRespText ∧ hasToolCalls wRespText = false ∧
    ∃ out, send wResponsesText wTools 7 wPrompt none = some out ∧
      out.calls = 1 ∧ out.result = .ok (mergedTextsOf wRespText) :=
  ⟨by decide, by decide,
    C4_first_turn_success wResponsesText wTools 7 wPrompt none wRespText (by decide)
      (by decide)⟩

/-- C5: in a turn whose tool calls are `tcs₁ ++ tc :: tcs₂`, where every call of
`tcs₁` succeeds and `tc` fails, the stage still dispatches every call to the registry
in the order received (the dispatch trace lists them all), and its collected result is
the error of `tc` — the first failure in call order — with the outputs of the
succeeded calls discarded. -/
theorem C5_all_dispatched_first_error
    (tools : String → String → Except ToolSetError String)
    (tcs₁ tcs₂ : List ToolCall) (tc : ToolCall) (e : ToolSetError)
    (h1 : ∀ t ∈ tcs₁, (tools t.function.name t.function.arguments).isOk = true)
    (h2 : resultOfCall tools tc = .error e) :
    runToolCalls tools ((tcs₁ ++ tc :: tcs₂).map AssistantContent.toolCall) =
      some ((tcs₁ ++ tc :: tcs₂).map (fun t => (t.function.name, t.function.arguments)),
        (tcs₁ ++ tc :: tcs₂).map (resultOfCall tools)) ∧
    collectResults ((tcs₁ ++ tc :: tcs₂).map (resultOfCall tools)) = .error e := by
  refine ⟨runToolCalls_map tools _, ?_⟩
  rw [List.map_append, List.map_cons, h2]
  refine collectResults_first_error _ _ _ ?_
  intro r hr
  rw [List.mem_map] at hr
  obtain ⟨t, ht, rfl⟩ := hr
  exact resultOfCall_isOk (h1 t ht)

/-- Witness for C5: the first call succeeds, the second fails; both are dispatched and
the stage result is the second call's error. -/
theorem C5_all_dispatched_first_error_witness :
    (∀ t ∈ [wCall], (wToolsFail t.function.name t.function.arguments).isOk = true) ∧
    resultOfCall wToolsFail wCall2 = .error ⟨"boom"⟩ ∧
    (runToolCalls wToolsFail (([wCall] ++ wCall2 :: []).map AssistantContent.toolCall) =
      some (([wCall] ++ wCall2 :: []).map
          (fun t => (t.function.name, t.function.arguments)),
        ([wCall] ++ wCall2 :: []).map (resultOfCall wToolsFail)) ∧
    collectResults (([wCall] ++ wCall2 :: []).map (resultOfCall wToolsFail)) =
      .error ⟨"boom"⟩) :=
  ⟨by decide, by decide,
    C5_all_dispatched_first_error wToolsFail [wCall] [] wCall2 ⟨"boom"⟩ (by decide)
      (by decide)⟩

/-- C6: if a tool call of some turn fails (first failure `e` after a succeeding
prefix), `send` aborts with the wrapped error of that first failing call; the final
history is the history before the turn (unaltered) extended with that turn's
Assistant message, and no User tool-result message for the turn. -/
theorem C6_tool_failure_abort (responses : Nat → Except CompletionError Response)
    (tools : String → String → Except ToolSetError String) (max_depth : Nat)
    (prompt : Message) (h0 : Option (List Message)) (k : Nat) (resp : Response)
    (tcs₁ tcs₂ : List ToolCall) (tc : ToolCall) (e : ToolSetError)
    (hk : k < max_depth + 2)
    (h : ∀ i < k, turnOkTC responses tools i = true)
    (hresp : responses k = .ok resp)
    (hrec : toolCallRecords resp = tcs₁ ++ tc :: tcs₂)
    (h1 : ∀ t ∈ tcs₁, (tools t.function.name t.function.arguments).isOk = true)
    (h2 : resultOfCall tools tc = .error e) :
    ∃ out, send responses tools max_depth prompt h0 = some out ∧
      out.result = .error (.completionError (.requestError e)) ∧
      out.history = initialHistory h0 prompt ++ runHistory responses tools k ++
        [Message.assistant none resp.choice] :=
  ⟨_, send_run_toolfail hk h hresp hrec h1 h2, rfl, rfl⟩

/-- Witness for C6: two tool calls, the first succeeds, the second fails; the request
fails with the second's wrapped error and history ends with the Assistant message. -/
theorem C6_tool_failure_abort_witness :
    (0 : Nat) < 0 + 2 ∧
    wResponsesTC 0 = .ok wRespTC ∧
    toolCallRecords wRespTC = [wCall] ++ wCall2 :: [] ∧
    (∀ t ∈ [wCall], (wToolsFail t.function.name t.function.arguments).isOk = true) ∧
    resultOfCall wToolsFail wCall2 = .error ⟨"boom"⟩ ∧
    ∃ out, send wResponsesTC wToolsFail 0 wPrompt none = some out ∧
      out.result = .error (.completionError (.requestError ⟨"boom"⟩)) ∧
      out.history = initialHistory none wPrompt ++ runHistory wResponsesTC wToolsFail 0 ++
        [Message.assistant none wRespTC.choice] :=
  ⟨by decide, by decide, by decide, by decide, by decide,
    C6_tool_failure_abort wResponsesTC wToolsFail 0 wPrompt none 0 wRespTC [wCall] []
      wCall2 ⟨"boom"⟩ (by decide) (by decide) (by decide) (by decide) (by decide)
      (by decide)⟩

/-- C7: in a turn whose tool calls all succeed, exactly one User message is appended
after the turn's Assistant message, and its content is one `ToolResult` block per tool
call, in the original order of the tool-call blocks, each keyed by the call's `id` and
by the secondary `call_id` when the call carries one. -/
theorem C7_tool_result_message (responses : Nat → Except CompletionError Response)
    (tools : String → String → Except ToolSetError String)
    (max_depth current_max_depth : Nat) (chat_history : List Message) (calls : Nat)
    (dispatches : List (String × String)) (p : Message) (resp : Response)
    (f : ToolCall → String)
    (hp : chat_history.getLast? = some p)
    (hd : ¬ max_depth + 1 < current_max_depth)
    (hresp : responses calls = .ok resp)
    (htc : hasToolCalls resp = true)
    (hf : ∀ tc ∈ toolCallRecords resp,
      tools tc.function.name tc.function.arguments = .ok (f tc)) :
    ∃ oom, OneOrMany.many ((toolCallRecords resp).map
        (fun tc => UserContent.toolResult tc.id tc.call_id (OneOrMany.one (f tc)))) =
          some oom ∧
      oom.toList = (toolCallRecords resp).map
        (fun tc => UserContent.toolResult tc.id tc.call_id (OneOrMany.one (f tc))) ∧
      sendLoop responses tools max_depth current_max_depth chat_history calls
          dispatches =
        sendLoop responses tools max_depth (current_max_depth + 1)
          (chat_history ++ [Message.assistant none resp.choice, Message.user oom])
          (calls + 1)
          (dispatches ++ (toolCallRecords resp).map
            (fun tc => (tc.function.name, tc.function.arguments))) := by
  have hok : allToolsOk tools resp = true := by
    rw [allToolsOk, List.all_eq_true]
    intro tc htcmem
    rw [hf tc htcmem]
    rfl
  have hmap : toolResultsOf tools resp = (toolCallRecords resp).map
      (fun tc => UserContent.toolResult tc.id tc.call_id (OneOrMany.one (f tc))) := by
    rw [toolResultsOf]
    exact filterMap_toolResultOk_eq_map tools f _ hf
  obtain ⟨u, us, hcons⟩ := toolResultsOf_cons htc hok
  have hmsgs : turnMessages tools resp =
      [Message.assistant none resp.choice, Message.user ⟨u, us⟩] := by
    simp [turnMessages, hcons, OneOrMany.many]
  refine ⟨⟨u, us⟩, ?_, ?_, ?_⟩
  · rw [← hmap, hcons]
    rfl
  · rw [← hmap, hcons]
    rfl
  · rw [sendLoop_toolcalls_ok hp hd hresp htc hok, hmsgs, turnDispatches]

/-- Witness for C7 at a concrete turn: the follow-up User message holds one result
block per tool call, in order, with the secondary call id kept on the second call. -/
theorem C7_tool_result_message_witness :
    ([wPrompt].getLast? = some wPrompt) ∧
    (¬ (0 : Nat) + 1 < 0) ∧
    wResponsesTC 0 = .ok wRespTC ∧
    hasToolCalls wRespTC = true ∧
    (∀ tc ∈ toolCallRecords wRespTC,
      wTools tc.function.name tc.function.arguments =
        .ok ("out-" ++ tc.function.name)) ∧
    ∃ oom, OneOrMany.many ((toolCallRecords wRespTC).map
        (fun tc => UserContent.toolResult tc.id tc.call_id
          (OneOrMany.one ("out-" ++ tc.function.name)))) = some oom ∧
      oom.toList = (toolCallRecords wRespTC).map
        (fun tc => UserContent.toolResult tc.id tc.call_id
          (OneOrMany.one ("out-" ++ tc.function.name))) ∧
      sendLoop wResponsesTC wTools 0 0 [wPrompt] 0 [] =
        sendLoop wResponsesTC wTools 0 (0 + 1)
          ([wPrompt] ++ [Message.assistant none wRespTC.choice, Message.user oom])
          (0 + 1)
          ([] ++ (toolCallRecords wRespTC).map
            (fun tc => (tc.function.name, tc.function.arguments))) :=
  ⟨by decide, by decide, by decide, by decide, by decide,
    C7_tool_result_message wResponsesTC wTools 0 0 [wPrompt] 0 [] wPrompt wRespTC
      (fun tc => "out-" ++ tc.function.name) (by decide) (by decide) (by decide)
      (by decide) (by decide)⟩

/-- C8: history mutation is append-only and monotonic: every execution of `send`
returns an outcome whose history extends the initial history (the caller's entries
and the pushed prompt are unaltered and the length never decreases); each full
tool-resolution cycle appends exactly one Assistant message carrying the full
unpartitioned response content plus exactly one User tool-result message, and a final
no-tool-call turn appends exactly its Assistant message. -/
theorem C8_history_monotonic (responses : Nat → Except CompletionError Response)
    (tools : String → String → Except ToolSetError String) (max_depth : Nat)
    (prompt : Message) (h0 : Option (List Message)) :
    (∃ out, send responses tools max_depth prompt h0 = some out ∧
      (∃ t, out.history = initialHistory h0 prompt ++ t) ∧
      (initialHistory h0 prompt).length ≤ out.history.length) ∧
    (∀ i, turnOkTC responses tools i = true →
      ∃ resp u us, responses i = .ok resp ∧
        turnMessages tools resp =
          [Message.assistant none resp.choice, Message.user ⟨u, us⟩]) ∧
    (∀ k resp, k < max_depth + 2 → (∀ i < k, turnOkTC responses tools i = true) →
      responses k = .ok resp → hasToolCalls resp = false →
      ∃ out, send responses tools max_depth prompt h0 = some out ∧
        out.history = initialHistory h0 prompt ++ runHistory responses tools k ++
          [Message.assistant none resp.choice]) := by
  refine ⟨?_, ?_, ?_⟩
  · have hne := initialHistory_ne_nil h0 prompt
    obtain ⟨out, hout⟩ := Option.isSome_iff_exists.mp
      (sendLoop_isSome responses tools max_depth 0 (initialHistory h0 prompt) 0 [] hne)
    obtain ⟨t, ht⟩ :=
      sendLoop_history_prefix responses tools max_depth 0 _ 0 [] out hout
    refine ⟨out, by rw [send]; exact hout, ⟨t, ht⟩, ?_⟩
    rw [ht]
    simp
  · intro i hi
    obtain ⟨resp, hresp, htc, hok⟩ := turnOkTC_elim hi
    obtain ⟨u, us, hcons⟩ := toolResultsOf_cons htc hok
    exact ⟨resp, u, us, hresp, by simp [turnMessages, hcons, OneOrMany.many]⟩
  · intro k resp hk h hresp htc
    exact ⟨_, send_run_success hk h hresp htc, rfl⟩

/-- Witness for C8: a run with caller-supplied history; the final history extends the
initial one, the single tool turn appends its two messages, and the text turn ends
the run. -/
theorem C8_history_monotonic_witness :
    (∃ out, send wResponsesMixed wTools 0 wPrompt (some [wPrompt]) = some out ∧
      (∃ t, out.history = initialHistory (some [wPrompt]) wPrompt ++ t) ∧
      (initialHistory (some [wPrompt]) wPrompt).length ≤ out.history.length) ∧
    turnOkTC wResponsesMixed wTools 0 = true ∧
    (∃ resp u us, wResponsesMixed 0 = .ok resp ∧
      turnMessages wTools resp =
        [Message.assistant none resp.choice, Message.user ⟨u, us⟩]) ∧
    ((1 : Nat) < 0 + 2) ∧ (∀ i < (1 : Nat), turnOkTC wResponsesMixed wTools i = true) ∧
    wResponsesMixed 1 = .ok wRespText ∧ hasToolCalls wRespText = false ∧
    (∃ out, send wResponsesMixed wTools 0 wPrompt (some [wPrompt]) = some out ∧
      out.history = initialHistory (some [wPrompt]) wPrompt ++
        runHistory wResponsesMixed wTools 1 ++
        [Message.assistant none wRespText.choice]) :=
  ⟨(C8_history_monotonic wResponsesMixed wTools 0 wPrompt (some [wPrompt])).1,
    by decide,
    (C8_history_monotonic wResponsesMixed wTools 0 wPrompt (some [wPrompt])).2.1 0
      (by decide),
    by decide, by decide, by decide, by decide,
    (C8_history_monotonic wResponsesMixed wTools 0 wPrompt (some [wPrompt])).2.2 1
      wRespText (by decide) (by decide) (by decide) (by decide)⟩

/-- C9: the builder is immutable with single-field updates: `new` yields
`max_depth = 0` and no attached history; `multi_turn` changes only `max_depth`;
`with_history` changes only `chat_history`. -/
theorem C9_builder {Agent : Type} (agent : Agent) (p : Message)
    (r : PromptRequest Agent) (d : Nat) (h : List Message) :
    (PromptRequest.new agent p).prompt = p ∧
    (PromptRequest.new agent p).chat_history = none ∧
    (PromptRequest.new agent p).max_depth = 0 ∧
    (PromptRequest.new agent p).agent = agent ∧
    (r.multi_turn d).max_depth = d ∧
    (r.multi_turn d).prompt = r.prompt ∧
    (r.multi_turn d).chat_history = r.chat_history ∧
    (r.multi_turn d).agent = r.agent ∧
    (r.with_history h).chat_history = some h ∧
    (r.with_history h).prompt = r.prompt ∧
    (r.with_history h).max_depth = r.max_depth ∧
    (r.with_history h).agent = r.agent :=
  ⟨rfl, rfl, rfl, rfl, rfl, rfl, rfl, rfl, rfl, rfl, rfl, rfl⟩

/-- C10: `send` never panics: for every provider, registry, depth, prompt and
history, the execution reaches a return value — the `expect` on the last history
message, the `unreachable!` in the tool stream and the `expect` on `OneOrMany::many`
(all modelled as `none`) are never hit. -/
theorem C10_no_panic (responses : Nat → Except CompletionError Response)
    (tools : String → String → Except ToolSetError String) (max_depth : Nat)
    (prompt : Message) (h0 : Option (List Message)) :
    ∃ out, send responses tools max_depth prompt h0 = some out := by
  rw [send]
  exact Option.isSome_iff_exists.mp
    (sendLoop_isSome responses tools max_depth 0 (initialHistory h0 prompt) 0 []
      (initialHistory_ne_nil h0 prompt))

end Rig
